import Mathlib

/-!
Verification development for the core of `valid.py` (a type-aware tabular
data validator): the per-cell type classifier `detect_type`, the equivalence
engine `compare`, and the grid validation loop.

Modelling conventions (shallow embedding):
* Python floats are modelled by exact rationals (`ℚ`); `float(...)` string
  parsing is modelled by `pyFloat`, which accepts the decimal-literal grammar
  (optional sign, digits, fraction, exponent, surrounding whitespace).  The
  exotic inputs `inf` / `nan` / underscore separators accepted by CPython are
  not modelled; no property below depends on them.
* `dateutil.parser.parse(...).date()` is modelled by `dateParse`, restricted
  to the ISO `YYYY-MM-DD` and US `M/D/YYYY` forms (the formats the behaviour
  under scrutiny exercises); the day-of-month check is the permissive 1..31.
* `difflib.SequenceMatcher(None, a, b).ratio()` is modelled by `ratioChars`:
  the Ratcliff/Obershelp greedy matching-blocks ratio, with the longest block
  chosen earliest-in-`a` then earliest-in-`b`, exactly as `difflib` does for
  inputs below the autojunk threshold (the autojunk heuristic, which only
  activates at 200+ characters, is not modelled).
* A cell value is `na` (pandas missing data), a number, or a string, which
  covers every value the comparison paths distinguish.
-/

set_option maxRecDepth 8000

namespace Valid

/-- A raw cell value as seen by the validator: missing data (`pd.isna`),
a numeric cell, or a textual cell. -/
inductive Value where
  | na : Value
  | num (q : ℚ) : Value
  | str (s : String) : Value
deriving DecidableEq

/-- Model of `pd.isna` on a single cell. -/
def isna : Value → Bool
  | Value.na => true
  | _ => false

/-- Characters stripped by Python `str.strip()`. -/
def isWS (c : Char) : Bool :=
  c == ' ' || c == '\t' || c == '\n' || c == '\r' || c == '\x0b' || c == '\x0c'

/-- Model of Python `str.strip()` on a character list. -/
def trimChars (cs : List Char) : List Char :=
  ((cs.dropWhile isWS).reverse.dropWhile isWS).reverse

/-- ASCII lower-casing of one character (Python `str.lower()` on the
character repertoire the program manipulates). -/
def lowerChar (c : Char) : Char :=
  if 'A' ≤ c ∧ c ≤ 'Z' then Char.ofNat (c.toNat + 32) else c

/-- Model of Python `str.lower()`. -/
def lowerChars (cs : List Char) : List Char := cs.map lowerChar

/-- `str.strip()` as a `String → String` function. -/
def pyTrim (s : String) : String := ⟨trimChars s.data⟩

/-- Numeric value of a digit list, most significant first. -/
def digitsVal (ds : List Char) : Nat :=
  ds.foldl (fun n c => 10 * n + (c.toNat - 48)) 0

/-- Split a leading run of decimal digits off a character list. -/
def takeDigits : List Char → List Char × List Char
  | [] => ([], [])
  | c :: cs =>
    if c.isDigit then
      let r := takeDigits cs
      (c :: r.1, r.2)
    else ([], c :: cs)

/-- Consume an optional leading sign, returning its value. -/
def parseSign : List Char → Int × List Char
  | '+' :: cs => (1, cs)
  | '-' :: cs => (-1, cs)
  | cs => (1, cs)

/-- Parse the optional exponent suffix of a float literal; `some e` when the
remaining input is a wellformed (possibly empty) exponent part. -/
def parseExp : List Char → Option Int
  | [] => some 0
  | c :: cs =>
    if c = 'e' ∨ c = 'E' then
      let sr := parseSign cs
      let dr := takeDigits sr.2
      if dr.1 = [] ∨ dr.2 ≠ [] then none else some (sr.1 * (digitsVal dr.1 : Int))
    else none

/-- Multiply by a signed power of ten. -/
def qpow10 (e : Int) : ℚ :=
  if 0 ≤ e then (10 : ℚ) ^ e.toNat else 1 / (10 : ℚ) ^ (-e).toNat

/-- Model of CPython `float(s)` on a string: strip whitespace, then the
decimal literal grammar `[sign] (digits [. digits] | . digits) [exp]`. -/
def pyFloat (s : String) : Option ℚ :=
  let cs := trimChars s.data
  let sr := parseSign cs
  let ir := takeDigits sr.2
  match ir.2 with
  | '.' :: cs3 =>
    let fr := takeDigits cs3
    if ir.1 = [] ∧ fr.1 = [] then none
    else
      match parseExp fr.2 with
      | some e =>
        some ((sr.1 : ℚ) * ((digitsVal ir.1 : ℚ) + (digitsVal fr.1 : ℚ) / (10 : ℚ) ^ fr.1.length)
          * qpow10 e)
      | none => none
  | rest =>
    if ir.1 = [] then none
    else
      match parseExp rest with
      | some e => some ((sr.1 : ℚ) * (digitsVal ir.1 : ℚ) * qpow10 e)
      | none => none

/-- Model of Python `float(v)` on a raw cell value (the value is never `na`
at the call sites, which are all guarded by `pd.isna`). -/
def parseFloat : Value → Option ℚ
  | Value.na => none
  | Value.num q => some q
  | Value.str s => pyFloat s

/-- A calendar date, the result of `dateutil.parser.parse(...).date()`
(year/month/day; time-of-day already discarded). -/
structure Date where
  year : Nat
  month : Nat
  day : Nat
deriving DecidableEq

/-- Split a character list at every occurrence of a separator character. -/
def splitOnChar (sep : Char) : List Char → List (List Char)
  | [] => [[]]
  | x :: xs =>
    let r := splitOnChar sep xs
    if x = sep then [] :: r
    else
      match r with
      | [] => [[x]]
      | h :: t => (x :: h) :: t

/-- Assemble a date from year / month / day digit groups, with a 4-digit
year and plausibility bounds on month and day. -/
def mkDate (y m d : List Char) : Option Date :=
  if y.all Char.isDigit = true ∧ y.length = 4 ∧
     m.all Char.isDigit = true ∧ 1 ≤ m.length ∧ m.length ≤ 2 ∧
     d.all Char.isDigit = true ∧ 1 ≤ d.length ∧ d.length ≤ 2 ∧
     1 ≤ digitsVal m ∧ digitsVal m ≤ 12 ∧ 1 ≤ digitsVal d ∧ digitsVal d ≤ 31 then
    some ⟨digitsVal y, digitsVal m, digitsVal d⟩
  else none

/-- Model of `dateutil.parser.parse(s).date()`, restricted to the ISO
`YYYY-MM-DD` and US month-first `M/D/YYYY` textual forms. -/
def dateParse (s : String) : Option Date :=
  let cs := trimChars s.data
  match splitOnChar '-' cs with
  | [y, m, d] => mkDate y m d
  | _ =>
    match splitOnChar '/' cs with
    | [m, d, y] => mkDate y m d
    | _ => none

/-- Model of Python `str(v)` on a raw cell value.  In the branches of
`compare` that render values (`date` and text) both sides are always
textual cells, so only the `str` arm is ever exercised. -/
def pyStr : Value → String
  | Value.na => "nan"
  | Value.num q => toString q.num
  | Value.str s => s

/-- The semantic type inferred for one non-absent cell (the tags
`"number"` / `"date"` / `"string"` of the source). -/
inductive VType where
  | number : VType
  | date : VType
  | string : VType
deriving DecidableEq

/-- Model of `detect_type`: `none` for missing data, otherwise numeric
parse before date parse before the textual default. -/
def detect_type (v : Value) : Option VType :=
  if isna v then none
  else if (parseFloat v).isSome then some VType.number
  else if (dateParse (pyStr v)).isSome then some VType.date
  else some VType.string

/-- Length of the longest common prefix of two character lists. -/
def lcp : List Char → List Char → Nat
  | a :: as, b :: bs => if a = b then lcp as bs + 1 else 0
  | _, _ => 0

/-- All candidate matching blocks `(i, j, size)` between two sequences,
enumerated in increasing `i`, then increasing `j`. -/
def cands (a b : List Char) : List (Nat × Nat × Nat) :=
  (List.range a.length).flatMap fun i =>
    (List.range b.length).map fun j => (i, j, lcp (a.drop i) (b.drop j))

/-- Keep the better of two candidate blocks: a strictly larger size wins,
ties keep the earlier candidate. -/
def pickBest (best c : Nat × Nat × Nat) : Nat × Nat × Nat :=
  if best.2.2 < c.2.2 then c else best

/-- `SequenceMatcher.find_longest_match`: the longest matching block, ties
broken by the earliest start in `a`, then the earliest start in `b`. -/
def bestMatch (a b : List Char) : Nat × Nat × Nat :=
  (cands a b).foldl pickBest (0, 0, 0)

/-- Total size of the matching blocks found by the greedy recursive
decomposition of `SequenceMatcher.get_matching_blocks` (fuel-indexed;
`a.length + b.length` fuel always suffices). -/
def matchTotal : Nat → List Char → List Char → Nat
  | 0, _, _ => 0
  | fuel + 1, a, b =>
    let m := bestMatch a b
    if m.2.2 = 0 then 0
    else
      m.2.2 + matchTotal fuel (a.take m.1) (b.take m.2.1)
        + matchTotal fuel (a.drop (m.1 + m.2.2)) (b.drop (m.2.1 + m.2.2))

/-- Model of `SequenceMatcher(None, a, b).ratio()`: twice the matched
total over the combined length (1 when both sequences are empty). -/
def ratioChars (a b : List Char) : ℚ :=
  if a.length + b.length = 0 then 1
  else (2 * (matchTotal (a.length + b.length) a b : ℚ)) / ((a.length : ℚ) + (b.length : ℚ))

/-- Floor of a rational (only applied to nonnegative values here). -/
def qFloor (q : ℚ) : Int := q.num / (q.den : Int)

/-- The integer of hundredths printed by Python `f"{x:.2f}"`: round half
to even at the second decimal. -/
def hundredths (q : ℚ) : Int :=
  let x := q * 100
  let f := qFloor x
  if x - (f : ℚ) = 1 / 2 then (if f % 2 = 0 then f else f + 1)
  else qFloor (x + 1 / 2)

/-- Model of the f-string `f"{ratio:.2f}"` for the nonnegative ratios the
program prints. -/
def fmt2 (q : ℚ) : String :=
  let n := (hundredths q).toNat
  let ip := n / 100
  let fp := n % 100
  toString ip ++ "." ++ (if fp < 10 then "0" ++ toString fp else toString fp)

/-- The final, textual stage of `compare`: strip both sides, exact
(case-sensitive) equality, otherwise the fuzzy ratio of the lower-cased
strings against the threshold, with the ratio-annotated reason. -/
def textBranch (sa sb : String) (fuzzy : ℚ) : Bool × String :=
  let a := pyTrim sa
  let b := pyTrim sb
  if a = b then (true, "string match")
  else
    let r := ratioChars (lowerChars a.data) (lowerChars b.data)
    (decide (fuzzy ≤ r), "string mismatch (" ++ fmt2 r ++ ")")

/-- Model of `compare(a, b, tol, fuzzy)`: absent checks, then the numeric
branch (no fallthrough on parse failure), then the date branch (falling
through to text on parse failure), then the text branch. -/
def compare (a b : Value) (tol fuzzy : ℚ) : Bool × String :=
  if isna a && isna b then (true, "empty")
  else if isna a then (false, "left empty")
  else if isna b then (false, "right empty")
  else
    let ta := detect_type a
    let tb := detect_type b
    if ta = some VType.number ∨ tb = some VType.number then
      match parseFloat a, parseFloat b with
      | some x, some y =>
        if |x - y| ≤ tol then (true, "num ok") else (false, "num mismatch")
      | _, _ => (false, "num parse fail")
    else if ta = some VType.date ∨ tb = some VType.date then
      match dateParse (pyStr a), dateParse (pyStr b) with
      | some da, some db =>
        if da = db then (true, "date ok") else (false, "date mismatch")
      | _, _ => textBranch (pyStr a) (pyStr b) fuzzy
    else textBranch (pyStr a) (pyStr b) fuzzy

/-- One mismatch record of the validation loop. -/
structure MismatchRecord where
  row : Nat
  left_column : String
  right_column : String
  left_value : Value
  right_value : Value
  reason : String
deriving DecidableEq

/-- Body of the validation loop for one `(row, pair)` combination:
`some` record exactly when `compare` reports a non-match. -/
def checkPair (table : Nat → String → Value) (tol fuzzy : ℚ) (row : Nat)
    (p : String × String) : Option MismatchRecord :=
  let lv := table row p.1
  let rv := table row p.2
  let res := compare lv rv tol fuzzy
  if res.1 then none
  else some ⟨row, p.1, p.2, lv, rv, res.2⟩

/-- Model of the `Validate Now` loop: rows `start_row..end_row` inclusive,
each against every mapped pair in order, collecting mismatch records, and
the reported `total_checks`. -/
def validate (table : Nat → String → Value) (start_row end_row : Nat)
    (mapping : List (String × String)) (tol fuzzy : ℚ) :
    List MismatchRecord × Nat :=
  let rows := List.range' start_row (end_row + 1 - start_row)
  (rows.flatMap fun row => mapping.filterMap (checkPair table tol fuzzy row),
   (end_row - start_row + 1) * mapping.length)

/-- The reason codes `compare` can emit. -/
def IsReason (s : String) : Prop :=
  s = "empty" ∨ s = "left empty" ∨ s = "right empty" ∨
  s = "num ok" ∨ s = "num mismatch" ∨ s = "num parse fail" ∨
  s = "date ok" ∨ s = "date mismatch" ∨ s = "string match" ∨
  ∃ r : ℚ, s = "string mismatch (" ++ fmt2 r ++ ")"

/-! Helper lemmas about the modelled `SequenceMatcher` ratio. -/

theorem lcp_le_left : ∀ x y : List Char, lcp x y ≤ x.length := by
  intro x
  induction x with
  | nil => intro y; cases y <;> simp [lcp]
  | cons a as ih =>
    intro y
    cases y with
    | nil => simp [lcp]
    | cons b bs =>
      by_cases hab : a = b
      · simp only [lcp, if_pos hab, List.length_cons]
        exact Nat.succ_le_succ (ih bs)
      · simp [lcp, hab]

theorem lcp_le_right : ∀ x y : List Char, lcp x y ≤ y.length := by
  intro x
  induction x with
  | nil => intro y; cases y <;> simp [lcp]
  | cons a as ih =>
    intro y
    cases y with
    | nil => simp [lcp]
    | cons b bs =>
      by_cases hab : a = b
      · simp only [lcp, if_pos hab, List.length_cons]
        exact Nat.succ_le_succ (ih bs)
      · simp [lcp, hab]

theorem lcp_self : ∀ x : List Char, lcp x x = x.length := by
  intro x
  induction x with
  | nil => rfl
  | cons a as ih => simp [lcp, ih]

theorem lcp_take_eq : ∀ x y : List Char, x.take (lcp x y) = y.take (lcp x y) := by
  intro x
  induction x with
  | nil => intro y; cases y <;> simp [lcp]
  | cons a as ih =>
    intro y
    cases y with
    | nil => simp [lcp]
    | cons b bs =>
      by_cases hab : a = b
      · simp only [lcp, if_pos hab, List.take_succ_cons]
        rw [hab, ih bs]
      · simp [lcp, hab]

theorem mem_cands {a b : List Char} {c : Nat × Nat × Nat} (hc : c ∈ cands a b) :
    c.1 < a.length ∧ c.2.1 < b.length ∧ c.2.2 = lcp (a.drop c.1) (b.drop c.2.1) := by
  rcases List.mem_flatMap.1 hc with ⟨i, hi, hm⟩
  rcases List.mem_map.1 hm with ⟨j, hj, rfl⟩
  exact ⟨List.mem_range.1 hi, List.mem_range.1 hj, rfl⟩

theorem cands_size_le {a b : List Char} {c : Nat × Nat × Nat} (hc : c ∈ cands a b) :
    c.2.2 ≤ a.length := by
  obtain ⟨h1, _, h3⟩ := mem_cands hc
  calc c.2.2 = lcp (a.drop c.1) (b.drop c.2.1) := h3
    _ ≤ (a.drop c.1).length := lcp_le_left _ _
    _ ≤ a.length := by rw [List.length_drop]; omega

theorem foldl_pickBest_mem (l : List (Nat × Nat × Nat)) :
    ∀ acc, l.foldl pickBest acc = acc ∨ l.foldl pickBest acc ∈ l := by
  induction l with
  | nil => exact fun _ => Or.inl rfl
  | cons c cs ih =>
    intro acc
    rw [List.foldl_cons]
    rcases ih (pickBest acc c) with h | h
    · rw [h]
      by_cases hlt : acc.2.2 < c.2.2
      · right
        simp only [pickBest, if_pos hlt]
        exact List.mem_cons_self _ _
      · left
        simp only [pickBest, if_neg hlt]
    · right
      exact List.mem_cons_of_mem _ h

theorem foldl_pickBest_stable (l : List (Nat × Nat × Nat)) :
    ∀ acc, (∀ c ∈ l, c.2.2 ≤ acc.2.2) → l.foldl pickBest acc = acc := by
  induction l with
  | nil => intro acc _; rfl
  | cons c cs ih =>
    intro acc h
    rw [List.foldl_cons]
    have hc : pickBest acc c = acc := by
      simp only [pickBest, if_neg (Nat.not_lt.2 (h c (List.mem_cons_self _ _)))]
    rw [hc]
    exact ih acc fun d hd => h d (List.mem_cons_of_mem _ hd)

theorem bestMatch_spec {a b : List Char} (h : (bestMatch a b).2.2 ≠ 0) :
    (bestMatch a b).1 < a.length ∧ (bestMatch a b).2.1 < b.length ∧
    (bestMatch a b).2.2 = lcp (a.drop (bestMatch a b).1) (b.drop (bestMatch a b).2.1) := by
  have hm := foldl_pickBest_mem (cands a b) (0, 0, 0)
  rw [show (cands a b).foldl pickBest (0, 0, 0) = bestMatch a b from rfl] at hm
  rcases hm with hm | hm
  · exact absurd (by rw [hm]) h
  · exact mem_cands hm

theorem bestMatch_self {l : List Char} (h : l ≠ []) : bestMatch l l = (0, 0, l.length) := by
  obtain ⟨n, hn⟩ : ∃ n, l.length = n + 1 := by
    cases l with
    | nil => exact absurd rfl h
    | cons x xs => exact ⟨xs.length, rfl⟩
  obtain ⟨rest, hrest⟩ : ∃ rest, cands l l = (0, 0, l.length) :: rest := by
    simp only [cands, hn, List.range_succ_eq_map, List.flatMap_cons, List.map_cons,
      List.cons_append, List.drop_zero, lcp_self]
    exact ⟨_, rfl⟩
  have hsz : ∀ c ∈ rest, c.2.2 ≤ l.length := fun c hc =>
    cands_size_le (a := l) (b := l) (by rw [hrest]; exact List.mem_cons_of_mem _ hc)
  show (cands l l).foldl pickBest (0, 0, 0) = (0, 0, l.length)
  rw [hrest, List.foldl_cons]
  have h1 : pickBest (0, 0, 0) (0, 0, l.length) = (0, 0, l.length) := by
    simp only [pickBest]
    rw [if_pos]
    show (0 : Nat) < l.length
    omega
  rw [h1]
  exact foldl_pickBest_stable rest _ hsz

theorem matchTotal_le_left : ∀ (fuel : Nat) (a b : List Char),
    matchTotal fuel a b ≤ a.length := by
  intro fuel
  induction fuel with
  | zero => intro a b; exact Nat.zero_le _
  | succ fuel ih =>
    intro a b
    simp only [matchTotal]
    by_cases hz : (bestMatch a b).2.2 = 0
    · rw [if_pos hz]; exact Nat.zero_le _
    · rw [if_neg hz]
      obtain ⟨hi, hj, hk⟩ := bestMatch_spec hz
      have hkla : (bestMatch a b).1 + (bestMatch a b).2.2 ≤ a.length := by
        have := lcp_le_left (a.drop (bestMatch a b).1) (b.drop (bestMatch a b).2.1)
        rw [← hk, List.length_drop] at this
        omega
      have hMl := ih (a.take (bestMatch a b).1) (b.take (bestMatch a b).2.1)
      have hMr := ih (a.drop ((bestMatch a b).1 + (bestMatch a b).2.2))
        (b.drop ((bestMatch a b).2.1 + (bestMatch a b).2.2))
      rw [List.length_take, Nat.min_eq_left (Nat.le_of_lt hi)] at hMl
      rw [List.length_drop] at hMr
      omega

theorem matchTotal_le_right : ∀ (fuel : Nat) (a b : List Char),
    matchTotal fuel a b ≤ b.length := by
  intro fuel
  induction fuel with
  | zero => intro a b; exact Nat.zero_le _
  | succ fuel ih =>
    intro a b
    simp only [matchTotal]
    by_cases hz : (bestMatch a b).2.2 = 0
    · rw [if_pos hz]; exact Nat.zero_le _
    · rw [if_neg hz]
      obtain ⟨hi, hj, hk⟩ := bestMatch_spec hz
      have hklb : (bestMatch a b).2.1 + (bestMatch a b).2.2 ≤ b.length := by
        have := lcp_le_right (a.drop (bestMatch a b).1) (b.drop (bestMatch a b).2.1)
        rw [← hk, List.length_drop] at this
        omega
      have hMl := ih (a.take (bestMatch a b).1) (b.take (bestMatch a b).2.1)
      have hMr := ih (a.drop ((bestMatch a b).1 + (bestMatch a b).2.2))
        (b.drop ((bestMatch a b).2.1 + (bestMatch a b).2.2))
      rw [List.length_take, Nat.min_eq_left (Nat.le_of_lt hj)] at hMl
      rw [List.length_drop] at hMr
      omega

theorem list_split_take_drop (x : List Char) (i k : Nat) :
    x = x.take i ++ ((x.drop i).take k ++ x.drop (i + k)) := by
  conv_lhs => rw [← List.take_append_drop i x]
  congr 1
  conv_lhs => rw [← List.take_append_drop k (x.drop i)]
  rw [List.drop_drop]

theorem eq_of_matchTotal_full : ∀ (fuel : Nat) (a b : List Char),
    a.length + b.length ≤ fuel →
    matchTotal fuel a b = a.length → matchTotal fuel a b = b.length → a = b := by
  intro fuel
  induction fuel with
  | zero =>
    intro a b hf ha hb
    simp only [matchTotal] at ha hb
    have ha0 : a = [] := List.length_eq_zero.1 (by omega)
    have hb0 : b = [] := List.length_eq_zero.1 (by omega)
    rw [ha0, hb0]
  | succ fuel ih =>
    intro a b hf ha hb
    simp only [matchTotal] at ha hb
    rcases hbm : bestMatch a b with ⟨i, j, k⟩
    rw [hbm] at ha hb
    dsimp only at ha hb
    by_cases hz : k = 0
    · rw [if_pos hz] at ha hb
      have ha0 : a = [] := List.length_eq_zero.1 (by omega)
      have hb0 : b = [] := List.length_eq_zero.1 (by omega)
      rw [ha0, hb0]
    · rw [if_neg hz] at ha hb
      have hspec := bestMatch_spec (a := a) (b := b) (by rw [hbm]; exact hz)
      rw [hbm] at hspec
      dsimp only at hspec
      obtain ⟨hi, hj, hk⟩ := hspec
      have hkla : i + k ≤ a.length := by
        have := lcp_le_left (a.drop i) (b.drop j)
        rw [← hk, List.length_drop] at this
        omega
      have hklb : j + k ≤ b.length := by
        have := lcp_le_right (a.drop i) (b.drop j)
        rw [← hk, List.length_drop] at this
        omega
      have hMlL := matchTotal_le_left fuel (a.take i) (b.take j)
      have hMlR := matchTotal_le_right fuel (a.take i) (b.take j)
      have hMrL := matchTotal_le_left fuel (a.drop (i + k)) (b.drop (j + k))
      have hMrR := matchTotal_le_right fuel (a.drop (i + k)) (b.drop (j + k))
      rw [List.length_take, Nat.min_eq_left (Nat.le_of_lt hi)] at hMlL
      rw [List.length_take, Nat.min_eq_left (Nat.le_of_lt hj)] at hMlR
      rw [List.length_drop] at hMrL
      rw [List.length_drop] at hMrR
      have hL : a.take i = b.take j := by
        apply ih
        · rw [List.length_take, List.length_take, Nat.min_eq_left (Nat.le_of_lt hi),
            Nat.min_eq_left (Nat.le_of_lt hj)]
          omega
        · rw [List.length_take, Nat.min_eq_left (Nat.le_of_lt hi)]
          omega
        · rw [List.length_take, Nat.min_eq_left (Nat.le_of_lt hj)]
          omega
      have hR : a.drop (i + k) = b.drop (j + k) := by
        apply ih
        · rw [List.length_drop, List.length_drop]
          omega
        · rw [List.length_drop]
          omega
        · rw [List.length_drop]
          omega
      have hMid : (a.drop i).take k = (b.drop j).take k := by
        rw [hk]
        exact lcp_take_eq _ _
      rw [list_split_take_drop a i k, list_split_take_drop b j k, hL, hMid, hR]

theorem matchTotal_nil_nil : ∀ fuel, matchTotal fuel ([] : List Char) [] = 0 := by
  intro fuel
  cases fuel with
  | zero => rfl
  | succ fuel => rfl

theorem matchTotal_self_succ (fuel : Nat) (l : List Char) :
    matchTotal (fuel + 1) l l = l.length := by
  cases hl : l with
  | nil => rfl
  | cons x xs =>
    rw [← hl]
    have hne : l ≠ [] := by rw [hl]; exact List.cons_ne_nil _ _
    simp only [matchTotal, bestMatch_self hne]
    rw [if_neg (by rw [hl]; exact Nat.succ_ne_zero _)]
    simp only [List.take_zero, Nat.zero_add, List.drop_length, matchTotal_nil_nil]
    omega

theorem ratioChars_self (l : List Char) : ratioChars l l = 1 := by
  cases hl : l with
  | nil => rfl
  | cons x xs =>
    rw [← hl]
    have hpos : 0 < l.length := by rw [hl]; exact Nat.succ_pos _
    rw [ratioChars, if_neg (by omega)]
    rw [show l.length + l.length = (l.length + l.length - 1) + 1 from by omega,
      matchTotal_self_succ]
    have hcast : ((l.length : ℚ) + l.length) ≠ 0 := by
      have : (0 : ℚ) < (l.length : ℚ) + l.length := by
        have := Nat.cast_pos (α := ℚ) |>.2 hpos
        linarith
      linarith
    rw [div_eq_one_iff_eq hcast]
    ring

theorem ratioChars_eq_one {a b : List Char} (h : ratioChars a b = 1) : a = b := by
  by_cases h0 : a.length + b.length = 0
  · have ha0 : a = [] := List.length_eq_zero.1 (by omega)
    have hb0 : b = [] := List.length_eq_zero.1 (by omega)
    rw [ha0, hb0]
  · rw [ratioChars, if_neg h0] at h
    have hcast : ((a.length : ℚ) + b.length) ≠ 0 := by
      have hpos : 0 < a.length + b.length := Nat.pos_of_ne_zero h0
      have hq : (0 : ℚ) < (a.length : ℚ) + b.length := by exact_mod_cast hpos
      linarith
    rw [div_eq_one_iff_eq hcast] at h
    have hnat : 2 * matchTotal (a.length + b.length) a b = a.length + b.length := by
      exact_mod_cast h
    have hla := matchTotal_le_left (a.length + b.length) a b
    have hlb := matchTotal_le_right (a.length + b.length) a b
    exact eq_of_matchTotal_full (a.length + b.length) a b le_rfl (by omega) (by omega)

/-! Helper lemmas about the text branch and the dispatch structure of
`compare`. -/

theorem fmt2_one : fmt2 1 = "1.00" := by with_unfolding_all decide

theorem textBranch_exact {sa sb : String} (h : pyTrim sa = pyTrim sb) (fz : ℚ) :
    textBranch sa sb fz = (true, "string match") := by
  simp only [textBranch, if_pos h]

theorem textBranch_ci {sa sb : String} (hne : pyTrim sa ≠ pyTrim sb)
    (hlow : lowerChars (pyTrim sa).data = lowerChars (pyTrim sb).data) {fz : ℚ}
    (hfz : fz ≤ 1) :
    textBranch sa sb fz = (true, "string mismatch (1.00)") := by
  simp only [textBranch, if_neg hne, hlow, ratioChars_self, fmt2_one]
  rw [decide_eq_true hfz]
  rfl

theorem compare_numBranch {a b : Value} (ha : isna a = false) (hb : isna b = false)
    (hnum : detect_type a = some VType.number ∨ detect_type b = some VType.number)
    (tol fz : ℚ) :
    compare a b tol fz =
      match parseFloat a, parseFloat b with
      | some x, some y => if |x - y| ≤ tol then (true, "num ok") else (false, "num mismatch")
      | _, _ => (false, "num parse fail") := by
  simp only [compare, ha, hb, Bool.false_and, Bool.false_eq_true, if_false]
  rw [if_pos hnum]

theorem compare_dateBranch {a b : Value} (ha : isna a = false) (hb : isna b = false)
    (hna : detect_type a ≠ some VType.number) (hnb : detect_type b ≠ some VType.number)
    (hdate : detect_type a = some VType.date ∨ detect_type b = some VType.date)
    (tol fz : ℚ) :
    compare a b tol fz =
      match dateParse (pyStr a), dateParse (pyStr b) with
      | some da, some db => if da = db then (true, "date ok") else (false, "date mismatch")
      | _, _ => textBranch (pyStr a) (pyStr b) fz := by
  simp only [compare, ha, hb, Bool.false_and, Bool.false_eq_true, if_false]
  rw [if_neg (not_or.2 ⟨hna, hnb⟩), if_pos hdate]

theorem compare_textOnly {a b : Value} (ha : isna a = false) (hb : isna b = false)
    (hna : detect_type a ≠ some VType.number) (hnb : detect_type b ≠ some VType.number)
    (hda : detect_type a ≠ some VType.date) (hdb : detect_type b ≠ some VType.date)
    (tol fz : ℚ) :
    compare a b tol fz = textBranch (pyStr a) (pyStr b) fz := by
  simp only [compare, ha, hb, Bool.false_and, Bool.false_eq_true, if_false]
  rw [if_neg (not_or.2 ⟨hna, hnb⟩), if_neg (not_or.2 ⟨hda, hdb⟩)]

theorem compare_str_text {s t : String} (hs : detect_type (Value.str s) = some VType.string)
    (ht : detect_type (Value.str t) = some VType.string) (tol fz : ℚ) :
    compare (Value.str s) (Value.str t) tol fz = textBranch s t fz :=
  compare_textOnly (a := Value.str s) (b := Value.str t) rfl rfl
    (by rw [hs]; simp) (by rw [ht]; simp) (by rw [hs]; simp) (by rw [ht]; simp) tol fz

/-! Helper lemmas about `detect_type`, the validation loop, and reason
codes. -/

theorem detect_type_none_iff (v : Value) : detect_type v = none ↔ isna v = true := by
  cases hv : isna v
  · simp only [detect_type, hv, Bool.false_eq_true, if_false]
    constructor
    · intro h
      by_cases h1 : (parseFloat v).isSome = true
      · rw [if_pos h1] at h
        exact absurd h (by simp)
      · rw [if_neg h1] at h
        by_cases h2 : (dateParse (pyStr v)).isSome = true
        · rw [if_pos h2] at h
          exact absurd h (by simp)
        · rw [if_neg h2] at h
          exact absurd h (by simp)
    · intro h
      exact absurd h (by simp)
  · simp [detect_type, hv]

theorem detect_type_cases (v : Value) (h : isna v = false) :
    detect_type v = some VType.number ∨ detect_type v = some VType.date ∨
    detect_type v = some VType.string := by
  simp only [detect_type, h, Bool.false_eq_true, if_false]
  by_cases h1 : (parseFloat v).isSome = true
  · rw [if_pos h1]
    exact Or.inl rfl
  · rw [if_neg h1]
    by_cases h2 : (dateParse (pyStr v)).isSome = true
    · rw [if_pos h2]
      exact Or.inr (Or.inl rfl)
    · rw [if_neg h2]
      exact Or.inr (Or.inr rfl)

theorem detect_type_number_of_parse (v : Value) (h : isna v = false)
    (hp : (parseFloat v).isSome = true) : detect_type v = some VType.number := by
  simp only [detect_type, h, Bool.false_eq_true, if_false, hp, if_true]

theorem textBranch_reason (sa sb : String) (fz : ℚ) : IsReason (textBranch sa sb fz).2 := by
  by_cases h : pyTrim sa = pyTrim sb
  · rw [textBranch_exact h]
    exact Or.inr (Or.inr (Or.inr (Or.inr (Or.inr (Or.inr (Or.inr (Or.inr (Or.inl rfl))))))))
  · simp only [textBranch, if_neg h]
    exact Or.inr (Or.inr (Or.inr (Or.inr (Or.inr (Or.inr (Or.inr (Or.inr (Or.inr
      ⟨ratioChars (lowerChars (pyTrim sa).data) (lowerChars (pyTrim sb).data), rfl⟩))))))))

theorem compare_reason_total (a b : Value) (tol fz : ℚ) :
    IsReason (compare a b tol fz).2 := by
  cases ha : isna a
  · cases hb : isna b
    · by_cases hnum : detect_type a = some VType.number ∨ detect_type b = some VType.number
      · rw [compare_numBranch ha hb hnum]
        cases hpa : parseFloat a with
        | none =>
          cases hpb : parseFloat b with
          | none => exact Or.inr (Or.inr (Or.inr (Or.inr (Or.inr (Or.inl rfl)))))
          | some y => exact Or.inr (Or.inr (Or.inr (Or.inr (Or.inr (Or.inl rfl)))))
        | some x =>
          cases hpb : parseFloat b with
          | none => exact Or.inr (Or.inr (Or.inr (Or.inr (Or.inr (Or.inl rfl)))))
          | some y =>
            dsimp only
            by_cases htol : |x - y| ≤ tol
            · rw [if_pos htol]
              exact Or.inr (Or.inr (Or.inr (Or.inl rfl)))
            · rw [if_neg htol]
              exact Or.inr (Or.inr (Or.inr (Or.inr (Or.inl rfl))))
      · rw [not_or] at hnum
        by_cases hdate : detect_type a = some VType.date ∨ detect_type b = some VType.date
        · rw [compare_dateBranch ha hb hnum.1 hnum.2 hdate]
          cases hda : dateParse (pyStr a) with
          | none =>
            cases hdb : dateParse (pyStr b) with
            | none => exact textBranch_reason _ _ _
            | some db => exact textBranch_reason _ _ _
          | some da =>
            cases hdb : dateParse (pyStr b) with
            | none => exact textBranch_reason _ _ _
            | some db =>
              dsimp only
              by_cases heq : da = db
              · rw [if_pos heq]
                exact Or.inr (Or.inr (Or.inr (Or.inr (Or.inr (Or.inr (Or.inl rfl))))))
              · rw [if_neg heq]
                exact Or.inr (Or.inr (Or.inr (Or.inr (Or.inr (Or.inr (Or.inr (Or.inl rfl)))))))
        · rw [not_or] at hdate
          rw [compare_textOnly ha hb hnum.1 hnum.2 hdate.1 hdate.2]
          exact textBranch_reason _ _ _
    · simp only [compare, ha, hb, Bool.and_true, if_false, if_true]
      exact Or.inr (Or.inr (Or.inl rfl))
  · cases hb : isna b
    · simp only [compare, ha, hb, Bool.and_false, if_false, if_true]
      exact Or.inr (Or.inl rfl)
    · simp only [compare, ha, hb, Bool.and_self, if_true]
      exact Or.inl rfl

theorem validate_mem {table : Nat → String → Value} {s e : Nat}
    {m : List (String × String)} {tol fz : ℚ} {r : MismatchRecord}
    (hr : r ∈ (validate table s e m tol fz).1) :
    s ≤ r.row ∧ r.row ≤ e ∧ (r.left_column, r.right_column) ∈ m ∧
    r.left_value = table r.row r.left_column ∧
    r.right_value = table r.row r.right_column ∧
    r.reason = (compare r.left_value r.right_value tol fz).2 ∧
    (compare r.left_value r.right_value tol fz).1 = false := by
  simp only [validate] at hr
  rcases List.mem_flatMap.1 hr with ⟨row, hrow, hmem⟩
  rcases List.mem_filterMap.1 hmem with ⟨p, hp, hcp⟩
  obtain ⟨h1, h2⟩ := List.mem_range'_1.1 hrow
  simp only [checkPair] at hcp
  by_cases hok : (compare (table row p.1) (table row p.2) tol fz).1 = true
  · rw [if_pos hok] at hcp
    exact absurd hcp (by simp)
  · rw [if_neg hok] at hcp
    have hrec := Option.some.inj hcp
    subst hrec
    dsimp only
    refine ⟨by omega, by omega, ?_, rfl, rfl, rfl, by simp only [Bool.not_eq_true] at hok; exact hok⟩
    simpa using hp

theorem flatMap_filterMap_length_le (m : List (String × String))
    (g : Nat → (String × String) → Option MismatchRecord) :
    ∀ rows : List Nat,
      (rows.flatMap fun row => m.filterMap (g row)).length ≤ rows.length * m.length := by
  intro rows
  induction rows with
  | nil => simp
  | cons r rs ih =>
    rw [List.flatMap_cons, List.length_append, List.length_cons]
    have h1 := List.length_filterMap_le (g r) m
    calc (m.filterMap (g r)).length + (rs.flatMap fun row => m.filterMap (g row)).length
        ≤ m.length + rs.length * m.length := Nat.add_le_add h1 ih
      _ = (rs.length + 1) * m.length := by ring

theorem validate_length_le (table : Nat → String → Value) (s e : Nat)
    (m : List (String × String)) (tol fz : ℚ) :
    (validate table s e m tol fz).1.length ≤ (validate table s e m tol fz).2 := by
  simp only [validate]
  have h1 := flatMap_filterMap_length_le m (checkPair table tol fz) (List.range' s (e + 1 - s))
  rw [List.length_range'] at h1
  have h2 : (e + 1 - s) * m.length ≤ (e - s + 1) * m.length :=
    Nat.mul_le_mul_right _ (by omega)
  omega

/-! Claim theorems. -/

/-- Claim C1, counterexample: on `"Apple"` vs `"apple"` (trimmed forms equal
ignoring case) `compare` does not return the `string match` reason: the
exact-equality test is case-sensitive, so the result is the fuzzy verdict
`(true, "string mismatch (1.00)")`. -/
theorem text_exact_case_sensitive_cx :
    compare (Value.str "Apple") (Value.str "apple") (1/100) (85/100)
        = (true, "string mismatch (1.00)") ∧
    ((true, "string mismatch (1.00)") : Bool × String) ≠ (true, "string match") := by
  constructor
  · rw [compare_str_text (by decide) (by decide),
      textBranch_ci (by decide) (by decide) (by norm_num)]
  · decide

/-- Claim C1 (amended): in the text branch the exact match after trimming is
case-sensitive and yields reason `string match`; two trimmed strings that are
distinct but equal ignoring case instead take the fuzzy path and, for any
threshold at most 1, yield the verdict `true` with the ratio-annotated reason
`string mismatch (1.00)` rather than `string match`. -/
theorem text_exact_case_sensitive :
    ∀ s t : String, detect_type (Value.str s) = some VType.string →
      detect_type (Value.str t) = some VType.string →
      ∀ tol fz : ℚ,
      (pyTrim s = pyTrim t →
        compare (Value.str s) (Value.str t) tol fz = (true, "string match")) ∧
      (pyTrim s ≠ pyTrim t → lowerChars (pyTrim s).data = lowerChars (pyTrim t).data →
        fz ≤ 1 →
        compare (Value.str s) (Value.str t) tol fz = (true, "string mismatch (1.00)")) := by
  intro s t hs ht tol fz
  constructor
  · intro h
    rw [compare_str_text hs ht, textBranch_exact h]
  · intro hne hlow hfz
    rw [compare_str_text hs ht, textBranch_ci hne hlow hfz]

/-- Claim C1, witness. -/
theorem text_exact_case_sensitive_w :
    compare (Value.str " hi") (Value.str "hi ") (1/100) (85/100) = (true, "string match") :=
  (text_exact_case_sensitive " hi" "hi " (by decide) (by decide) (1/100) (85/100)).1 (by decide)

/-- Claim C2: in the numeric branch (entered whenever either side classifies
as number, after the absent checks), if both sides parse as numbers the
verdict is a match exactly when `|left - right| ≤ tol` (inclusive), with
reasons `num ok` / `num mismatch`; if either side fails to parse the result
is `(false, "num parse fail")` with no fallthrough to the date or text
rules.  The boundary `|a - b| = tol` matches. -/
theorem numeric_branch_spec :
    (∀ (a b : Value) (tol fz : ℚ), isna a = false → isna b = false →
      (detect_type a = some VType.number ∨ detect_type b = some VType.number) →
      (∀ x y : ℚ, parseFloat a = some x → parseFloat b = some y →
        compare a b tol fz =
          if |x - y| ≤ tol then (true, "num ok") else (false, "num mismatch")) ∧
      ((parseFloat a = none ∨ parseFloat b = none) →
        compare a b tol fz = (false, "num parse fail"))) ∧
    (∀ fz : ℚ, compare (Value.num 1) (Value.num (101/100)) (1/100) fz = (true, "num ok")) := by
  constructor
  · intro a b tol fz ha hb hnum
    constructor
    · intro x y hx hy
      rw [compare_numBranch ha hb hnum, hx, hy]
    · intro hfail
      rw [compare_numBranch ha hb hnum]
      rcases hfail with hfa | hfb
      · rw [hfa]
      · rw [hfb]
        cases hpa : parseFloat a <;> rfl
  · intro fz
    rw [compare_numBranch (a := Value.num 1) (b := Value.num (101/100)) rfl rfl
      (Or.inl (detect_type_number_of_parse (Value.num 1) rfl rfl))]
    dsimp only [parseFloat]
    rw [if_pos (by rw [abs_le]; constructor <;> norm_num)]

/-- Claim C2, witness. -/
theorem numeric_branch_spec_w :
    compare (Value.num 1) (Value.str "x") 1 1 = (false, "num parse fail") :=
  (numeric_branch_spec.1 (Value.num 1) (Value.str "x") 1 1 rfl rfl
    (Or.inl (by decide))).2 (Or.inr (by decide))

/-- Claim C3: in the date branch (neither side classifies as number, either
side classifies as date), if both sides parse as dates the verdict is a
match exactly when the calendar dates are equal, reasons `date ok` /
`date mismatch`; two textual forms of the same calendar date match for every
tolerance configuration; and if parsing of either side fails, `compare`
falls through to the text rule. -/
theorem date_branch_spec :
    (∀ (a b : Value) (tol fz : ℚ), isna a = false → isna b = false →
      detect_type a ≠ some VType.number → detect_type b ≠ some VType.number →
      (detect_type a = some VType.date ∨ detect_type b = some VType.date) →
      (∀ da db : Date, dateParse (pyStr a) = some da → dateParse (pyStr b) = some db →
        compare a b tol fz =
          if da = db then (true, "date ok") else (false, "date mismatch")) ∧
      ((dateParse (pyStr a) = none ∨ dateParse (pyStr b) = none) →
        compare a b tol fz = textBranch (pyStr a) (pyStr b) fz)) ∧
    (∀ tol fz : ℚ, compare (Value.str "2024-01-05") (Value.str "01/05/2024") tol fz
        = (true, "date ok")) ∧
    (∀ tol fz : ℚ, compare (Value.str "2024-01-05") (Value.str "2024-01-06") tol fz
        = (false, "date mismatch")) := by
  refine ⟨?_, ?_, ?_⟩
  · intro a b tol fz ha hb hna hnb hdate
    constructor
    · intro da db hda hdb
      rw [compare_dateBranch ha hb hna hnb hdate, hda, hdb]
    · intro hfail
      rw [compare_dateBranch ha hb hna hnb hdate]
      rcases hfail with hfa | hfb
      · rw [hfa]
      · rw [hfb]
        cases hda : dateParse (pyStr a) <;> rfl
  · intro tol fz
    rw [compare_dateBranch (a := Value.str "2024-01-05") (b := Value.str "01/05/2024")
      rfl rfl (by decide) (by decide) (Or.inl (by decide)),
      show dateParse (pyStr (Value.str "2024-01-05")) = some ⟨2024, 1, 5⟩ from by decide,
      show dateParse (pyStr (Value.str "01/05/2024")) = some ⟨2024, 1, 5⟩ from by decide]
    dsimp only
    decide
  · intro tol fz
    rw [compare_dateBranch (a := Value.str "2024-01-05") (b := Value.str "2024-01-06")
      rfl rfl (by decide) (by decide) (Or.inl (by decide)),
      show dateParse (pyStr (Value.str "2024-01-05")) = some ⟨2024, 1, 5⟩ from by decide,
      show dateParse (pyStr (Value.str "2024-01-06")) = some ⟨2024, 1, 6⟩ from by decide]
    dsimp only
    decide

/-- Claim C3, witness: a date-classified left side whose right side fails to
parse as a date falls through to the text rule. -/
theorem date_branch_spec_w :
    compare (Value.str "2024-01-05") (Value.str "hello") (1/100) (85/100)
        = textBranch "2024-01-05" "hello" (85/100) :=
  (date_branch_spec.1 (Value.str "2024-01-05") (Value.str "hello") (1/100) (85/100)
    rfl rfl (by decide) (by decide) (Or.inl (by decide))).2 (Or.inr (by decide))

/-- Claim C4: absent handling has top priority: both sides absent gives
`(true, "empty")`; exactly one absent gives `(false, "left empty")` or
`(false, "right empty")` respectively, for every other-side value and every
tolerance configuration. -/
theorem absent_priority :
    (∀ tol fz : ℚ, compare Value.na Value.na tol fz = (true, "empty")) ∧
    (∀ b : Value, isna b = false → ∀ tol fz : ℚ,
      compare Value.na b tol fz = (false, "left empty")) ∧
    (∀ a : Value, isna a = false → ∀ tol fz : ℚ,
      compare a Value.na tol fz = (false, "right empty")) := by
  refine ⟨fun tol fz => rfl, ?_, ?_⟩
  · intro b hb tol fz
    simp only [compare, show isna Value.na = true from rfl, hb, Bool.true_and,
      Bool.false_eq_true, if_false, if_true]
  · intro a ha tol fz
    simp only [compare, show isna Value.na = true from rfl, ha, Bool.false_and,
      Bool.false_eq_true, if_false, if_true]

/-- Claim C4, witness. -/
theorem absent_priority_w :
    compare Value.na (Value.num 5) 1 1 = (false, "left empty") :=
  absent_priority.2.1 (Value.num 5) rfl 1 1

/-- Claim C5: the reported `total_checks` equals
`(end - start + 1) * (number of mapped pairs)` for every table, every valid
row range and every tolerance configuration, independent of the mismatches
produced. -/
theorem total_checks_spec :
    ∀ (table : Nat → String → Value) (s e : Nat) (m : List (String × String))
      (tol fz : ℚ), s ≤ e →
      (validate table s e m tol fz).2 = (e - s + 1) * m.length := by
  intro table s e m tol fz _
  rfl

/-- Claim C5, witness: boundary case `start = end` with a single pair. -/
theorem total_checks_spec_w :
    (validate (fun _ _ => Value.na) 0 0 [("L", "R")] 1 1).2
      = (0 - 0 + 1) * [("L", "R")].length :=
  total_checks_spec (fun _ _ => Value.na) 0 0 [("L", "R")] 1 1 (Nat.le_refl 0)

/-- Claim C6: `detect_type` is total on cell values: it returns the absent
result (`none`) exactly for missing data, otherwise one of number / date /
string, trying the numeric parse first, so a value that parses as a number
is classified number and a purely numeric token is never classified as a
date. -/
theorem detect_type_spec :
    (∀ v : Value, detect_type v = none ↔ isna v = true) ∧
    (∀ v : Value, isna v = false →
      detect_type v = some VType.number ∨ detect_type v = some VType.date ∨
      detect_type v = some VType.string) ∧
    (∀ v : Value, isna v = false → (parseFloat v).isSome = true →
      detect_type v = some VType.number) ∧
    detect_type (Value.str "2024") = some VType.number :=
  ⟨detect_type_none_iff, detect_type_cases, detect_type_number_of_parse, by decide⟩

/-- Claim C6, witness. -/
theorem detect_type_spec_w : detect_type (Value.str "3.5") = some VType.number :=
  detect_type_spec.2.2.1 (Value.str "3.5") rfl (by decide)

/-- Claim C7, counterexample: the modelled `SequenceMatcher` ratio is not
symmetric: on `"abxc"` / `"byca"` the two orders give 1/4 and 1/2. -/
theorem ratio_not_symmetric_cx :
    ratioChars "abxc".data "byca".data ≠ ratioChars "byca".data "abxc".data := by
  with_unfolding_all decide

/-- Claim C7 (amended): the fuzzy similarity ratio used in the text branch
equals 1 only when the two character sequences are identical; it is not
symmetric in general. -/
theorem ratio_eq_one_only_identical :
    ∀ a b : List Char, ratioChars a b = 1 → a = b :=
  fun _ _ h => ratioChars_eq_one h

/-- Claim C7, witness. -/
theorem ratio_eq_one_only_identical_w : "ab".data = "ab".data :=
  ratio_eq_one_only_identical "ab".data "ab".data (ratioChars_self "ab".data)

/-- Claim C8: `compare` is total at the per-cell level: every pair of raw
values and tolerance configuration produces a verdict whose reason is one of
the specified reason codes (parse failures become reason codes, never
escapes), and every record produced by the full grid scan carries such a
reason. -/
theorem compare_total_reasons :
    (∀ (a b : Value) (tol fz : ℚ), IsReason (compare a b tol fz).2) ∧
    (∀ (table : Nat → String → Value) (s e : Nat) (m : List (String × String))
      (tol fz : ℚ) (r : MismatchRecord),
      r ∈ (validate table s e m tol fz).1 → IsReason r.reason) := by
  refine ⟨compare_reason_total, ?_⟩
  intro table s e m tol fz r hr
  obtain ⟨_, _, _, _, _, hreason, _⟩ := validate_mem hr
  rw [hreason]
  exact compare_reason_total _ _ _ _

/-- Claim C8, witness. -/
theorem compare_total_reasons_w :
    IsReason ((⟨0, "L", "R", Value.num 1, Value.num 5, "num mismatch"⟩ : MismatchRecord)).reason :=
  compare_total_reasons.2 (fun _ c => if c = "L" then Value.num 1 else Value.num 5) 0 0
    [("L", "R")] (1/100) (85/100)
    ⟨0, "L", "R", Value.num 1, Value.num 5, "num mismatch"⟩
    (by with_unfolding_all decide)

/-- Claim C9: every mismatch record of a validation run has its row inside
the inclusive row range, its column pair among the mapped pairs, its stored
values equal to the table cells at that position, and the number of records
never exceeds the reported total check count. -/
theorem validate_invariants :
    ∀ (table : Nat → String → Value) (s e : Nat) (m : List (String × String))
      (tol fz : ℚ), s ≤ e →
      (∀ r : MismatchRecord, r ∈ (validate table s e m tol fz).1 →
        s ≤ r.row ∧ r.row ≤ e ∧ (r.left_column, r.right_column) ∈ m ∧
        r.left_value = table r.row r.left_column ∧
        r.right_value = table r.row r.right_column) ∧
      (validate table s e m tol fz).1.length ≤ (validate table s e m tol fz).2 := by
  intro table s e m tol fz hse
  refine ⟨?_, validate_length_le table s e m tol fz⟩
  intro r hr
  obtain ⟨h1, h2, h3, h4, h5, _, _⟩ := validate_mem hr
  exact ⟨h1, h2, h3, h4, h5⟩

/-- Claim C9, witness. -/
theorem validate_invariants_w :
    (validate (fun _ c => if c = "L" then Value.num 1 else Value.num 5) 0 0
        [("L", "R")] (1/100) (85/100)).1.length ≤
      (validate (fun _ c => if c = "L" then Value.num 1 else Value.num 5) 0 0
        [("L", "R")] (1/100) (85/100)).2 :=
  (validate_invariants (fun _ c => if c = "L" then Value.num 1 else Value.num 5) 0 0
    [("L", "R")] (1/100) (85/100) (Nat.le_refl 0)).2

/-- Claim C10: two non-absent text values whose trimmed forms are distinct
but equal ignoring case take the fuzzy path: the ratio of the identical
lower-cased strings is 1, so for any threshold at most 1 the verdict is
`true` with the ratio-annotated reason `string mismatch (1.00)` rather than
the exact-match reason. -/
theorem text_ci_fuzzy_pass :
    ∀ s t : String, detect_type (Value.str s) = some VType.string →
      detect_type (Value.str t) = some VType.string →
      pyTrim s ≠ pyTrim t → lowerChars (pyTrim s).data = lowerChars (pyTrim t).data →
      ∀ tol fz : ℚ, fz ≤ 1 →
      compare (Value.str s) (Value.str t) tol fz = (true, "string mismatch (1.00)") := by
  intro s t hs ht hne hlow tol fz hfz
  rw [compare_str_text hs ht, textBranch_ci hne hlow hfz]

/-- Claim C10, witness. -/
theorem text_ci_fuzzy_pass_w :
    compare (Value.str "Bob ") (Value.str "bob") (1/100) (85/100)
        = (true, "string mismatch (1.00)") :=
  text_ci_fuzzy_pass "Bob " "bob" (by decide) (by decide) (by decide) (by decide)
    (1/100) (85/100) (by norm_num)

end Valid

